import Mathlib

/-!
Verification of the Match Round Engine of the memory-matching game
(src/.history/memory_match_20250919120432.py and
src/.history/match_20250920093031.py).

The engine state lives in Streamlit session state: `deck`, `revealed`,
`matched`, `moves`, `pending_hide_at`, `finished`.  We embed it as a
record, flips (`on_card_click`) as a function returning
`Except RoundState RoundState`, and the top-of-script pending-hide check
as `tick`.  The only raise point of the flip handler is the deck lookup
`deck[i1] == deck[i2]` (memory_match line 96): by then `revealed.add(i)`
(line 90) and `moves += 1` (line 94) have already mutated session state,
and session state survives the uncaught `IndexError`, so the error case
carries that partially mutated state and traces continue from it.
Timestamps are rationals; `time.time()` is nonnegative, which the trace
relation records.  `random.sample` / `random.shuffle` are nondeterministic,
so deck creation is a relation `ValidDeal` rather than a function.
-/

namespace MemoryMatch

/-- Per-round engine state, mirroring the session-state fields
`deck`, `revealed`, `matched`, `moves`, `pending_hide_at`, `finished`.
Python's `revealed` is a set of indices; since `on_card_click` only adds an
index after checking it is not already present, a duplicate-free list is a
faithful embedding.  `pending_hide_at` uses the code's `0` sentinel for
"no pending hide" (Python truthiness of the float timestamp). -/
structure RoundState where
  deck : List String
  revealed : List ℕ
  matched : Finset ℕ
  moves : ℕ
  pending_hide_at : ℚ
  finished : Bool
deriving DecidableEq

deriving instance DecidableEq for Except

/-- State set up by `new_game` (memory_match lines 26-36) once the shuffled
deck is fixed: empty reveal and matched sets, zero moves, no pending hide,
not finished. -/
def new_game (deck : List String) : RoundState :=
  { deck := deck
    revealed := []
    matched := ∅
    moves := 0
    pending_hide_at := 0
    finished := false }

/-- The ANIMALS symbol pool of match.py lines 121-124, verbatim.  Note that
"🦊" occurs at both index 5 and index 17. -/
def ANIMALS : List String :=
  ["🐶","🐱","🐭","🐹","🐰","🦊","🐻","🐼","🐨","🦁",
   "🐷","🐸","🐵","🐮","🐯","🦒","🦓","🦊","🦝","🦘"]

/-- Deck creation in `new_game`: `symbols = random.sample(pool, pairs)`
draws `pairs` entries without replacement (any permutation of a sublist of
the pool), then `deck = symbols * 2` is shuffled.  `ValidDeal pool pairs
deck` holds exactly when this nondeterministic process can output `deck`.
`random.sample` raises `ValueError` iff `pairs > pool.length`, which is
exactly when no `symbols` of the required length exists. -/
def ValidDeal (pool : List String) (pairs : ℕ) (deck : List String) : Prop :=
  ∃ symbols : List String,
    symbols.length = pairs ∧ List.Subperm symbols pool ∧
      List.Perm deck (symbols ++ symbols)

/-- The flip handler `on_card_click(i)` (memory_match lines 82-104).
Clicks on matched or already-revealed cards, after the win, or while a
mismatch is pending are silently ignored.  Otherwise `i` joins `revealed`;
when that makes two cards, `moves` increments and the two symbols are
compared: equal moves both into `matched` (setting `finished` when the
whole deck is matched), unequal schedules a hide at `now + 0.8`.  A deck
lookup at an out-of-range index raises `IndexError` in Python; by that
point the click has already been added to `revealed` and `moves` has been
incremented, and those mutations persist in session state past the
exception, so the error result carries the partially mutated state. -/
def on_card_click (s : RoundState) (i : ℕ) (now : ℚ) :
    Except RoundState RoundState :=
  if i ∈ s.matched ∨ i ∈ s.revealed ∨ s.finished = true then
    Except.ok s
  else if s.pending_hide_at ≠ 0 then
    Except.ok s
  else
    match s.revealed with
    | [j] =>
      match s.deck[i]?, s.deck[j]? with
      | some a, some b =>
        if a = b then
          Except.ok
            { s with revealed := []
                     matched := insert i (insert j s.matched)
                     moves := s.moves + 1
                     finished :=
                       decide ((insert i (insert j s.matched)).card =
                         s.deck.length) }
        else
          Except.ok
            { s with revealed := [i, j]
                     moves := s.moves + 1
                     pending_hide_at := now + 4/5 }
      | _, _ =>
        Except.error { s with revealed := [i, j], moves := s.moves + 1 }
    | r => Except.ok { s with revealed := i :: r }

/-- The pending-hide check run at the top of every redraw (memory_match
lines 60-63): once the deadline has passed, hide the mismatched pair and
clear the deadline. -/
def tick (s : RoundState) (now : ℚ) : RoundState :=
  if s.pending_hide_at ≠ 0 ∧ s.pending_hide_at ≤ now then
    { s with revealed := [], pending_hide_at := 0 }
  else s

/-- Traces of the engine: states reachable from `new_game deck` by flips
and ticks, counting how many flips resolved as a match (`matched` grew).
A raising flip (`IndexError` mid-comparison) also extends the trace,
through the partially mutated session state carried by the error, because
Streamlit keeps serving the session after the exception.  Timestamps
supplied by `time.time()` are nonnegative. -/
inductive TraceN (d : List String) : RoundState → ℕ → Prop where
  | init : TraceN d (new_game d) 0
  | flip_match {s s' : RoundState} {n i : ℕ} {now : ℚ} :
      TraceN d s n → 0 ≤ now → on_card_click s i now = Except.ok s' →
      s'.matched ≠ s.matched → TraceN d s' (n + 1)
  | flip_other {s s' : RoundState} {n i : ℕ} {now : ℚ} :
      TraceN d s n → 0 ≤ now → on_card_click s i now = Except.ok s' →
      s'.matched = s.matched → TraceN d s' n
  | flip_raise {s s' : RoundState} {n i : ℕ} {now : ℚ} :
      TraceN d s n → 0 ≤ now → on_card_click s i now = Except.error s' →
      TraceN d s' n
  | tick_step {s : RoundState} {n : ℕ} {now : ℚ} :
      TraceN d s n → 0 ≤ now → TraceN d (tick s now) n

/-- A state is reachable for deck `d` when some trace from `new_game d`
ends in it, raising flips included. -/
def Reachable (d : List String) (s : RoundState) : Prop :=
  ∃ n, TraceN d s n

/-- Exception-free traces: as `TraceN` but without the raising-flip step,
i.e. runs in which no flip ever hit the `IndexError` in the deck lookup. -/
inductive SafeTraceN (d : List String) : RoundState → ℕ → Prop where
  | init : SafeTraceN d (new_game d) 0
  | flip_match {s s' : RoundState} {n i : ℕ} {now : ℚ} :
      SafeTraceN d s n → 0 ≤ now → on_card_click s i now = Except.ok s' →
      s'.matched ≠ s.matched → SafeTraceN d s' (n + 1)
  | flip_other {s s' : RoundState} {n i : ℕ} {now : ℚ} :
      SafeTraceN d s n → 0 ≤ now → on_card_click s i now = Except.ok s' →
      s'.matched = s.matched → SafeTraceN d s' n
  | tick_step {s : RoundState} {n : ℕ} {now : ℚ} :
      SafeTraceN d s n → 0 ≤ now → SafeTraceN d (tick s now) n

/-- A state is reachable without exceptions when some exception-free trace
from `new_game d` ends in it. -/
def SafeReachable (d : List String) (s : RoundState) : Prop :=
  ∃ n, SafeTraceN d s n

/-- The inductive invariant of the engine over all traces, raising flips
included, for a trace with `n` resolved matches: the deck is fixed, the
revealed list is duplicate-free, the revealed and matched sets are
disjoint, matched positions are deck indices, `finished` holds exactly
when the whole (nonempty) deck is matched, and the matched set has exactly
two positions per resolved match.  (No bound on the revealed list is
claimed here: after an exception it can keep growing.) -/
structure Inv (d : List String) (n : ℕ) (s : RoundState) : Prop where
  deck_eq : s.deck = d
  nodup : s.revealed.Nodup
  disj : ∀ k ∈ s.revealed, k ∉ s.matched
  mat_range : s.matched ⊆ Finset.range d.length
  fin_iff : s.finished = true ↔ s.matched.card = d.length ∧ 0 < d.length
  card_two : s.matched.card = 2 * n

/-- Clicks on a matched card, an already-revealed card, a finished round,
or while a hide is pending are silently ignored: the state is returned
unchanged and no error is possible. -/
theorem flip_noop {s : RoundState} {i : ℕ} {now : ℚ}
    (h : i ∈ s.matched ∨ i ∈ s.revealed ∨ s.finished = true ∨
      s.pending_hide_at ≠ 0) :
    on_card_click s i now = Except.ok s := by
  unfold on_card_click
  by_cases hg : i ∈ s.matched ∨ i ∈ s.revealed ∨ s.finished = true
  · rw [if_pos hg]
  · rw [if_neg hg]
    have hp : s.pending_hide_at ≠ 0 := by tauto
    rw [if_pos hp]

/-- An accepted flip with no card currently revealed adds the clicked
position to the revealed list and changes nothing else. -/
theorem flip_first {s : RoundState} {i : ℕ} {now : ℚ}
    (h1 : i ∉ s.matched) (h3 : s.finished = false)
    (h4 : s.pending_hide_at = 0) (h5 : s.revealed = []) :
    on_card_click s i now = Except.ok { s with revealed := [i] } := by
  unfold on_card_click
  rw [h5]
  simp [h1, h3, h4]

/-- An accepted flip with one card revealed and an equal symbol resolves a
match: the revealed list empties, both positions join the matched set, the
move counter increments, and `finished` is recomputed. -/
theorem flip_second_match {s : RoundState} {i j : ℕ} {a : String} {now : ℚ}
    (h1 : i ∉ s.matched) (hij : i ≠ j) (h3 : s.finished = false)
    (h4 : s.pending_hide_at = 0) (h5 : s.revealed = [j])
    (ha : s.deck[i]? = some a) (hb : s.deck[j]? = some a) :
    on_card_click s i now =
      Except.ok { s with revealed := []
                         matched := insert i (insert j s.matched)
                         moves := s.moves + 1
                         finished :=
                           decide ((insert i (insert j s.matched)).card =
                             s.deck.length) } := by
  unfold on_card_click
  rw [h5]
  simp [h1, h3, h4, hij, ha, hb]

/-- An accepted flip with one card revealed and a different symbol leaves
both cards revealed, increments the move counter, and schedules the hide
deadline at `now + 0.8`. -/
theorem flip_second_mismatch {s : RoundState} {i j : ℕ} {a b : String} {now : ℚ}
    (h1 : i ∉ s.matched) (hij : i ≠ j) (h3 : s.finished = false)
    (h4 : s.pending_hide_at = 0) (h5 : s.revealed = [j])
    (ha : s.deck[i]? = some a) (hb : s.deck[j]? = some b)
    (hab : a ≠ b) :
    on_card_click s i now =
      Except.ok { s with revealed := [i, j]
                         moves := s.moves + 1
                         pending_hide_at := now + 4/5 } := by
  unfold on_card_click
  rw [h5]
  simp [h1, h3, h4, hij, ha, hb, hab]

/-- Exhaustive description of the outcomes of a successful flip: either a
guard rejected the click and the state is unchanged, or the click was
accepted as a first card, a matching second card, or a mismatching second
card. -/
theorem flip_cases {s s' : RoundState} {i : ℕ} {now : ℚ}
    (h : on_card_click s i now = Except.ok s') :
    s' = s ∨
      (i ∉ s.matched ∧ i ∉ s.revealed ∧ s.finished = false ∧
        s.pending_hide_at = 0 ∧
        (((s.revealed = [] ∨ 2 ≤ s.revealed.length) ∧
            s' = { s with revealed := i :: s.revealed }) ∨
          (∃ j a, s.revealed = [j] ∧ s.deck[i]? = some a ∧
            s.deck[j]? = some a ∧
            s' = { s with revealed := []
                          matched := insert i (insert j s.matched)
                          moves := s.moves + 1
                          finished :=
                            decide ((insert i (insert j s.matched)).card =
                              s.deck.length) }) ∨
          (∃ j a b, s.revealed = [j] ∧ s.deck[i]? = some a ∧
            s.deck[j]? = some b ∧ a ≠ b ∧
            s' = { s with revealed := [i, j]
                          moves := s.moves + 1
                          pending_hide_at := now + 4/5 }))) := by
  unfold on_card_click at h
  split at h
  · exact Or.inl (Except.ok.inj h).symm
  · rename_i hg
    push_neg at hg
    obtain ⟨hm, hr, hf⟩ := hg
    replace hf : s.finished = false := by simpa using hf
    split at h
    · exact Or.inl (Except.ok.inj h).symm
    · rename_i hp
      push_neg at hp
      refine Or.inr ⟨hm, hr, hf, hp, ?_⟩
      split at h
      · rename_i j hrev
        split at h
        · rename_i a b hi hj
          split at h
          · rename_i hab
            subst hab
            exact Or.inr (Or.inl ⟨j, a, hrev, hi, hj,
              (Except.ok.inj h).symm⟩)
          · rename_i hab
            exact Or.inr (Or.inr ⟨j, a, b, hrev, hi, hj, hab,
              (Except.ok.inj h).symm⟩)
        · simp at h
      · rename_i r hne
        refine Or.inl ⟨?_, (Except.ok.inj h).symm⟩
        rcases hrev : s.revealed with _ | ⟨x, _ | ⟨y, t⟩⟩
        · exact Or.inl rfl
        · exact absurd hrev (hne x)
        · right
          simp

/-- The invariant holds in the freshly dealt state. -/
theorem inv_init {d : List String} : Inv d 0 (new_game d) := by
  refine ⟨rfl, by simp [new_game], by simp [new_game], by simp [new_game],
    ?_, by simp [new_game]⟩
  simp only [new_game]
  constructor
  · intro hfalse
    exact absurd hfalse (by simp)
  · rintro ⟨h1, h2⟩
    rw [Finset.card_empty] at h1
    exfalso
    omega

/-- A non-raising flip preserves the invariant; the match count increments
exactly when the matched set changed. -/
theorem inv_flip {d : List String} {n : ℕ} {s s' : RoundState} {i : ℕ}
    {now : ℚ} (inv : Inv d n s)
    (h : on_card_click s i now = Except.ok s') :
    (s'.matched = s.matched ∧ Inv d n s') ∨
      (s'.matched ≠ s.matched ∧ Inv d (n + 1) s') := by
  rcases flip_cases h with rfl | ⟨hm, hr, hf, hp, hcase⟩
  · exact Or.inl ⟨rfl, inv⟩
  rcases hcase with ⟨hrev0, rfl⟩ | ⟨j, a, hrev, hi, hj, rfl⟩ |
    ⟨j, a, b, hrev, hi, hj, hab, rfl⟩
  · -- accepted with the pair-comparison not triggered: the card is added
    refine Or.inl ⟨rfl, inv.deck_eq, ?_, ?_, inv.mat_range, inv.fin_iff,
      inv.card_two⟩
    · simp [inv.nodup, hr]
    · intro k hk
      simp at hk
      rcases hk with rfl | hk
      · exact hm
      · exact inv.disj k hk
  · -- matching second card
    have hjrev : j ∈ s.revealed := by rw [hrev]; simp
    have hij : i ≠ j := fun e => hr (e ▸ hjrev)
    have hjm : j ∉ s.matched := inv.disj j hjrev
    have hins : i ∉ insert j s.matched := by simp [hij, hm]
    have hcard : (insert i (insert j s.matched)).card =
        s.matched.card + 2 := by
      rw [Finset.card_insert_of_not_mem hins,
        Finset.card_insert_of_not_mem hjm]
    have hilt : i < d.length := by
      have := (List.getElem?_eq_some.mp hi).1
      rwa [inv.deck_eq] at this
    have hjlt : j < d.length := by
      have := (List.getElem?_eq_some.mp hj).1
      rwa [inv.deck_eq] at this
    refine Or.inr ⟨?_, inv.deck_eq, by simp, by simp, ?_, ?_, ?_⟩
    · intro he
      exact hm (he ▸ Finset.mem_insert_self i (insert j s.matched))
    · exact Finset.insert_subset_iff.mpr ⟨Finset.mem_range.mpr hilt,
        Finset.insert_subset_iff.mpr ⟨Finset.mem_range.mpr hjlt,
          inv.mat_range⟩⟩
    · constructor
      · intro hdec
        have hc := of_decide_eq_true hdec
        rw [inv.deck_eq] at hc
        exact ⟨hc, by omega⟩
      · rintro ⟨h1, _⟩
        exact decide_eq_true (by rw [inv.deck_eq]; exact h1)
    · have := inv.card_two
      simp only [hcard]
      omega
  · -- mismatching second card
    have hjrev : j ∈ s.revealed := by rw [hrev]; simp
    have hij : i ≠ j := fun e => hr (e ▸ hjrev)
    refine Or.inl ⟨rfl, inv.deck_eq, by simp [hij], ?_,
      inv.mat_range, inv.fin_iff, inv.card_two⟩
    intro k hk
    simp at hk
    rcases hk with rfl | rfl
    · exact hm
    · exact inv.disj k hjrev

/-- Exhaustive description of a raising flip (Python `IndexError` in the
pair-comparison): the guards passed, exactly one other card was revealed,
one of the two deck lookups was out of range, and the carried state has
the clicked card added to the reveal list and the move counted. -/
theorem flip_raise_cases {s s' : RoundState} {i : ℕ} {now : ℚ}
    (h : on_card_click s i now = Except.error s') :
    i ∉ s.matched ∧ i ∉ s.revealed ∧ s.finished = false ∧
      s.pending_hide_at = 0 ∧
      ∃ j, s.revealed = [j] ∧ (s.deck[i]? = none ∨ s.deck[j]? = none) ∧
        s' = { s with revealed := [i, j], moves := s.moves + 1 } := by
  unfold on_card_click at h
  split at h
  · simp at h
  · rename_i hg
    push_neg at hg
    obtain ⟨hm, hr, hf⟩ := hg
    replace hf : s.finished = false := by simpa using hf
    split at h
    · simp at h
    · rename_i hp
      push_neg at hp
      refine ⟨hm, hr, hf, hp, ?_⟩
      split at h
      · rename_i j hrev
        split at h
        · split at h <;> simp at h
        · rename_i x y hnomatch
          refine ⟨j, hrev, ?_, (Except.error.inj h).symm⟩
          rcases hci : s.deck[i]? with _ | a
          · exact Or.inl rfl
          · rcases hcj : s.deck[j]? with _ | b
            · exact Or.inr rfl
            · rw [hci, hcj] at hnomatch
              exact (hnomatch a b rfl rfl).elim
      · simp at h

/-- A raising flip leaves the matched set unchanged and preserves the
invariant at the same match count. -/
theorem inv_flip_raise {d : List String} {n : ℕ} {s s' : RoundState}
    {i : ℕ} {now : ℚ} (inv : Inv d n s)
    (h : on_card_click s i now = Except.error s') :
    s'.matched = s.matched ∧ Inv d n s' := by
  obtain ⟨hm, hr, hf, hp, j, hrev, _, rfl⟩ := flip_raise_cases h
  have hjrev : j ∈ s.revealed := by rw [hrev]; simp
  have hij : i ≠ j := fun e => hr (e ▸ hjrev)
  refine ⟨rfl, inv.deck_eq, by simp [hij], ?_, inv.mat_range, inv.fin_iff,
    inv.card_two⟩
  intro k hk
  simp at hk
  rcases hk with rfl | rfl
  · exact hm
  · exact inv.disj k hjrev

/-- A tick preserves the invariant (the matched set, move counter and
finished flag are untouched; at most the reveal list and deadline clear). -/
theorem inv_tick {d : List String} {n : ℕ} {s : RoundState} {now : ℚ}
    (inv : Inv d n s) : Inv d n (tick s now) := by
  unfold tick
  split
  · exact ⟨inv.deck_eq, by simp, by simp, inv.mat_range, inv.fin_iff,
      inv.card_two⟩
  · exact inv

/-- Every state in a trace with `n` resolved matches satisfies the
invariant, raising flips included. -/
theorem traceN_inv {d : List String} {s : RoundState} {n : ℕ}
    (h : TraceN d s n) : Inv d n s := by
  induction h with
  | init => exact inv_init
  | flip_match _ hnow hfl hne ih =>
    rcases inv_flip ih hfl with ⟨heq, _⟩ | ⟨_, inv2⟩
    · exact absurd heq hne
    · exact inv2
  | flip_other _ hnow hfl heq ih =>
    rcases inv_flip ih hfl with ⟨_, inv2⟩ | ⟨hne, _⟩
    · exact inv2
    · exact absurd heq hne
  | flip_raise _ hnow hfl ih => exact (inv_flip_raise ih hfl).2
  | tick_step _ hnow ih => exact inv_tick ih

/-- An exception-free trace is in particular a trace. -/
theorem safeTraceN_traceN {d : List String} {s : RoundState} {n : ℕ}
    (h : SafeTraceN d s n) : TraceN d s n := by
  induction h with
  | init => exact TraceN.init
  | flip_match _ hnow hfl hne ih => exact TraceN.flip_match ih hnow hfl hne
  | flip_other _ hnow hfl heq ih => exact TraceN.flip_other ih hnow hfl heq
  | tick_step _ hnow ih => exact TraceN.tick_step ih hnow

/-- One non-raising flip preserves the reveal-list bounds that hold on
exception-free runs: at most two cards revealed, at most one when no hide
deadline is pending. -/
theorem safe_rev_step {s s' : RoundState} {i : ℕ} {now : ℚ}
    (hnow : 0 ≤ now) (h : on_card_click s i now = Except.ok s')
    (ih : s.revealed.length ≤ 2 ∧
      (s.pending_hide_at = 0 → s.revealed.length ≤ 1)) :
    s'.revealed.length ≤ 2 ∧
      (s'.pending_hide_at = 0 → s'.revealed.length ≤ 1) := by
  rcases flip_cases h with rfl | ⟨hm, hr, hf, hp, hcase⟩
  · exact ih
  rcases hcase with ⟨hrev0, rfl⟩ | ⟨j, a, hrev, hi, hj, rfl⟩ |
    ⟨j, a, b, hrev, hi, hj, hab, rfl⟩
  · have hrevnil : s.revealed = [] := by
      rcases hrev0 with h0 | h0
      · exact h0
      · exact absurd (le_trans h0 (ih.2 hp)) (by omega)
    exact ⟨by simp [hrevnil], fun _ => by simp [hrevnil]⟩
  · exact ⟨by simp, fun _ => by simp⟩
  · refine ⟨by simp, fun h0 => ?_⟩
    exfalso
    simp at h0
    linarith

/-- Along exception-free traces the reveal list has at most two entries
(and at most one while no hide deadline is pending). -/
theorem safe_rev_bound {d : List String} {s : RoundState} {n : ℕ}
    (h : SafeTraceN d s n) :
    s.revealed.length ≤ 2 ∧
      (s.pending_hide_at = 0 → s.revealed.length ≤ 1) := by
  induction h with
  | init => exact ⟨by simp [new_game], fun _ => by simp [new_game]⟩
  | flip_match _ hnow hfl _ ih => exact safe_rev_step hnow hfl ih
  | flip_other _ hnow hfl _ ih => exact safe_rev_step hnow hfl ih
  | tick_step _ hnow ih =>
    unfold tick
    split
    · exact ⟨by simp, fun _ => by simp⟩
    · exact ih

/-- Claim C3: for every state and position, a flip is silently ignored
(no error, state fully unchanged) whenever the position is already
matched, already revealed, the round is finished, or a hide deadline is
set and unexpired. -/
theorem noop_preconditions {s : RoundState} {p : ℕ} {now : ℚ}
    (h : p ∈ s.matched ∨ p ∈ s.revealed ∨ s.finished = true ∨
      (s.pending_hide_at ≠ 0 ∧ now < s.pending_hide_at)) :
    on_card_click s p now = Except.ok s :=
  flip_noop (by tauto)

/-- Witness for C3: clicking the already-revealed card 0 is a no-op. -/
theorem noop_preconditions_witness :
    on_card_click { new_game ["A","A"] with revealed := [0] } 0 0 =
      Except.ok { new_game ["A","A"] with revealed := [0] } :=
  noop_preconditions (Or.inr (Or.inl (by decide)))

/-- Claim C4 (amended): in every state reachable without any flip ever
raising, the revealed list is duplicate-free with at most two entries.
The unrestricted claim is false: a raising out-of-range flip leaves its
position revealed in session state, after which the reveal set can exceed
two (see the counterexample). -/
theorem revealed_size_le_two {d : List String} {s : RoundState}
    (h : SafeReachable d s) : s.revealed.Nodup ∧ s.revealed.length ≤ 2 := by
  obtain ⟨n, ht⟩ := h
  exact ⟨(traceN_inv (safeTraceN_traceN ht)).nodup, (safe_rev_bound ht).1⟩

/-- Witness for C4 at the freshly dealt two-card round. -/
theorem revealed_size_le_two_witness :
    (new_game ["A","A"]).revealed.Nodup ∧
      (new_game ["A","A"]).revealed.length ≤ 2 :=
  revealed_size_le_two ⟨0, SafeTraceN.init⟩

/-- Claim C4 counterexample: on a fresh six-card round, flip 0, then the
out-of-range flip 6 — it raises mid-comparison, but `revealed.add(6)` and
`moves += 1` already happened and session state survives the exception —
then flip 1.  The resulting reachable state has three cards revealed,
refuting the claimed bound of 2. -/
theorem revealed_size_counterexample :
    Reachable ["A","A","B","B","C","C"]
      { deck := ["A","A","B","B","C","C"], revealed := [1, 6, 0],
        matched := ∅, moves := 1, pending_hide_at := 0,
        finished := false } ∧
      2 < ({ deck := ["A","A","B","B","C","C"], revealed := [1, 6, 0],
             matched := ∅, moves := 1, pending_hide_at := 0,
             finished := false } : RoundState).revealed.length := by
  have h1 : on_card_click (new_game ["A","A","B","B","C","C"]) 0 0 =
      Except.ok { deck := ["A","A","B","B","C","C"], revealed := [0],
                  matched := ∅, moves := 0, pending_hide_at := 0,
                  finished := false } := by decide
  have h2 : on_card_click
      { deck := ["A","A","B","B","C","C"], revealed := [0], matched := ∅,
        moves := 0, pending_hide_at := 0, finished := false } 6 0 =
      Except.error
        { deck := ["A","A","B","B","C","C"], revealed := [6, 0],
          matched := ∅, moves := 1, pending_hide_at := 0,
          finished := false } := by decide
  have h3 : on_card_click
      { deck := ["A","A","B","B","C","C"], revealed := [6, 0],
        matched := ∅, moves := 1, pending_hide_at := 0,
        finished := false } 1 0 =
      Except.ok
        { deck := ["A","A","B","B","C","C"], revealed := [1, 6, 0],
          matched := ∅, moves := 1, pending_hide_at := 0,
          finished := false } := by decide
  refine ⟨⟨0, ?_⟩, by decide⟩
  exact TraceN.flip_other
    (TraceN.flip_raise (TraceN.flip_other TraceN.init le_rfl h1 rfl)
      le_rfl h2)
    le_rfl h3 rfl

/-- Claim C5: in every reachable state — raising flips included — the
revealed set and the matched set are disjoint. -/
theorem revealed_matched_disjoint {d : List String} {s : RoundState}
    (h : Reachable d s) : s.revealed.toFinset ∩ s.matched = ∅ := by
  obtain ⟨n, ht⟩ := h
  refine Finset.eq_empty_iff_forall_not_mem.mpr ?_
  intro k hk
  rw [Finset.mem_inter, List.mem_toFinset] at hk
  exact (traceN_inv ht).disj k hk.1 hk.2

/-- Witness for C5 at the freshly dealt two-card round. -/
theorem revealed_matched_disjoint_witness :
    (new_game ["A","A"]).revealed.toFinset ∩ (new_game ["A","A"]).matched =
      ∅ :=
  revealed_matched_disjoint ⟨0, TraceN.init⟩

/-- Claim C10: in every reachable state — raising flips included — the
matched set has even size: each resolved match adds exactly the two
revealed positions, a raising flip never touches the matched set, and
nothing ever leaves it. -/
theorem matched_card_even {d : List String} {s : RoundState}
    (h : Reachable d s) : Even s.matched.card := by
  obtain ⟨n, ht⟩ := h
  exact ⟨n, by have := (traceN_inv ht).card_two; omega⟩

/-- Witness for C10 at the freshly dealt two-card round. -/
theorem matched_card_even_witness : Even (new_game ["A","A"]).matched.card :=
  matched_card_even ⟨0, TraceN.init⟩

/-- Claim C1: if deck positions i and j carry the same symbol, flipping i
as an accepted first card and then j as the accepted second card of a
pair-comparison leaves both i and j matched, the revealed set empty, and
the move counter larger by exactly 1. -/
theorem match_correctness {s : RoundState} {i j : ℕ} {a : String}
    {t1 t2 : ℚ}
    (hrev : s.revealed = []) (hpend : s.pending_hide_at = 0)
    (hfin : s.finished = false) (hij : i ≠ j)
    (hi : i ∉ s.matched) (hj : j ∉ s.matched)
    (hdi : s.deck[i]? = some a) (hdj : s.deck[j]? = some a) :
    ∃ s1 s2, on_card_click s i t1 = Except.ok s1 ∧
      on_card_click s1 j t2 = Except.ok s2 ∧
      i ∈ s2.matched ∧ j ∈ s2.matched ∧ s2.revealed = [] ∧
      s2.moves = s.moves + 1 := by
  refine ⟨{ s with revealed := [i] },
    { s with revealed := []
             matched := insert j (insert i s.matched)
             moves := s.moves + 1
             finished :=
               decide ((insert j (insert i s.matched)).card =
                 s.deck.length) },
    flip_first hi hfin hpend hrev, ?_, by simp, by simp, rfl, rfl⟩
  exact flip_second_match hj (Ne.symm hij) hfin hpend rfl hdj hdi

/-- Witness for C1: matching the two cards of a fresh two-card round. -/
theorem match_correctness_witness :
    ∃ s1 s2, on_card_click (new_game ["A","A"]) 0 0 = Except.ok s1 ∧
      on_card_click s1 1 0 = Except.ok s2 ∧
      0 ∈ s2.matched ∧ 1 ∈ s2.matched ∧ s2.revealed = [] ∧
      s2.moves = (new_game ["A","A"]).moves + 1 :=
  match_correctness rfl rfl rfl (by decide) (by decide) (by decide) rfl rfl

/-- Claim C2: if deck positions i and j carry different symbols, flipping
i then j as an accepted pair-comparison leaves both revealed with the hide
deadline set; every tick strictly before the deadline changes nothing, and
any tick at or past the deadline empties the revealed set and clears the
deadline while leaving the matched set and the move counter unchanged. -/
theorem mismatch_correctness {s : RoundState} {i j : ℕ} {a b : String}
    {t1 t2 : ℚ}
    (hrev : s.revealed = []) (hpend : s.pending_hide_at = 0)
    (hfin : s.finished = false) (hij : i ≠ j)
    (hi : i ∉ s.matched) (hj : j ∉ s.matched)
    (hdi : s.deck[i]? = some a) (hdj : s.deck[j]? = some b) (hab : a ≠ b)
    (ht2 : 0 ≤ t2) :
    ∃ s1 s2, on_card_click s i t1 = Except.ok s1 ∧
      on_card_click s1 j t2 = Except.ok s2 ∧
      i ∈ s2.revealed ∧ j ∈ s2.revealed ∧ s2.pending_hide_at ≠ 0 ∧
      s2.matched = s.matched ∧ s2.moves = s.moves + 1 ∧
      (∀ now, now < s2.pending_hide_at → tick s2 now = s2) ∧
      (∀ now, s2.pending_hide_at ≤ now →
        (tick s2 now).revealed = [] ∧ (tick s2 now).pending_hide_at = 0 ∧
        (tick s2 now).matched = s2.matched ∧
        (tick s2 now).moves = s2.moves) := by
  have hne : (0 : ℚ) < t2 + 4/5 := by linarith
  refine ⟨{ s with revealed := [i] },
    { s with revealed := [j, i]
             moves := s.moves + 1
             pending_hide_at := t2 + 4/5 },
    flip_first hi hfin hpend hrev,
    flip_second_mismatch hj (Ne.symm hij) hfin hpend rfl hdj hdi
      (Ne.symm hab),
    by simp, by simp, ne_of_gt hne, rfl, rfl, ?_, ?_⟩
  · intro now hnow
    unfold tick
    rw [if_neg]
    rintro ⟨_, hle⟩
    exact absurd hnow (not_lt.mpr hle)
  · intro now hnow
    unfold tick
    rw [if_pos ⟨ne_of_gt hne, hnow⟩]
    exact ⟨rfl, rfl, rfl, rfl⟩

/-- Witness for C2: mismatching cards 0 and 1 of a fresh A/B round. -/
theorem mismatch_correctness_witness :
    ∃ s1 s2, on_card_click (new_game ["A","B","A","B"]) 0 0 =
        Except.ok s1 ∧
      on_card_click s1 1 0 = Except.ok s2 ∧
      0 ∈ s2.revealed ∧ 1 ∈ s2.revealed ∧ s2.pending_hide_at ≠ 0 ∧
      s2.matched = (new_game ["A","B","A","B"]).matched ∧
      s2.moves = (new_game ["A","B","A","B"]).moves + 1 ∧
      (∀ now, now < s2.pending_hide_at → tick s2 now = s2) ∧
      (∀ now, s2.pending_hide_at ≤ now →
        (tick s2 now).revealed = [] ∧ (tick s2 now).pending_hide_at = 0 ∧
        (tick s2 now).matched = s2.matched ∧
        (tick s2 now).moves = s2.moves) :=
  mismatch_correctness rfl rfl rfl (by decide) (by decide) (by decide)
    rfl rfl (by decide) le_rfl

/-- Claim C7: with a deck of 2p cards, p > 0, a trace with exactly p
resolved matches — raising flips included — ends with the matched set
covering every deck position and the round finished; moreover along any
trace the round is finished exactly when the matched set covers the whole
deck. -/
theorem termination_after_matches {d : List String} {s : RoundState}
    {n p : ℕ} (h : TraceN d s n) (hlen : d.length = 2 * p) (hp : 0 < p) :
    (n = p → s.matched = Finset.range d.length ∧ s.finished = true) ∧
      (s.finished = true ↔ s.matched = Finset.range d.length) := by
  have inv := traceN_inv h
  have hdpos : 0 < d.length := by omega
  have hiff : s.finished = true ↔ s.matched = Finset.range d.length := by
    constructor
    · intro hfin
      obtain ⟨hc, _⟩ := inv.fin_iff.mp hfin
      apply Finset.eq_of_subset_of_card_le inv.mat_range
      simp [hc, Finset.card_range]
    · intro hmeq
      exact inv.fin_iff.mpr ⟨by rw [hmeq, Finset.card_range], hdpos⟩
  refine ⟨?_, hiff⟩
  rintro rfl
  have hc : s.matched.card = d.length := by rw [inv.card_two, hlen]
  have hmeq : s.matched = Finset.range d.length := by
    apply Finset.eq_of_subset_of_card_le inv.mat_range
    simp [hc, Finset.card_range]
  exact ⟨hmeq, hiff.mpr hmeq⟩

/-- Witness for C7: one match finishes a one-pair round. -/
theorem termination_after_matches_witness :
    (1 = 1 →
      ({ deck := ["A","A"], revealed := [], matched := {1, 0}, moves := 1,
         pending_hide_at := 0, finished := true } : RoundState).matched =
          Finset.range (["A","A"] : List String).length ∧
        ({ deck := ["A","A"], revealed := [], matched := {1, 0}, moves := 1,
           pending_hide_at := 0, finished := true } : RoundState).finished =
          true) ∧
      (({ deck := ["A","A"], revealed := [], matched := {1, 0}, moves := 1,
          pending_hide_at := 0, finished := true } : RoundState).finished =
          true ↔
        ({ deck := ["A","A"], revealed := [], matched := {1, 0}, moves := 1,
           pending_hide_at := 0, finished := true } : RoundState).matched =
          Finset.range (["A","A"] : List String).length) := by
  have h1 : on_card_click (new_game ["A","A"]) 0 0 =
      Except.ok { deck := ["A","A"], revealed := [0], matched := ∅,
                  moves := 0, pending_hide_at := 0, finished := false } := by
    decide
  have h2 : on_card_click
      { deck := ["A","A"], revealed := [0], matched := ∅, moves := 0,
        pending_hide_at := 0, finished := false } 1 0 =
      Except.ok { deck := ["A","A"], revealed := [], matched := {1, 0},
                  moves := 1, pending_hide_at := 0, finished := true } := by
    decide
  exact termination_after_matches
    (TraceN.flip_match (TraceN.flip_other TraceN.init le_rfl h1 rfl)
      le_rfl h2 (by decide))
    (by decide) (by decide)

/-- Claim C8 (amended): an out-of-range flip passes the same guards as any
other click, so it is not a no-op: accepted as a first card it adds the
out-of-range position to the revealed list, and accepted as a second card
it raises an IndexError — with the position already added to the reveal
list and the move already counted, mutations that persist in session
state. -/
theorem out_of_range_flip {s : RoundState} {p j : ℕ} {now : ℚ}
    (hp : s.deck.length ≤ p) (hm : p ∉ s.matched) (hr : p ∉ s.revealed)
    (hfin : s.finished = false) (hpend : s.pending_hide_at = 0) :
    (s.revealed = [] →
      on_card_click s p now = Except.ok { s with revealed := [p] }) ∧
      (s.revealed = [j] →
        on_card_click s p now =
          Except.error
            { s with revealed := [p, j], moves := s.moves + 1 }) := by
  have hnone : s.deck[p]? = none := by
    rw [List.getElem?_eq_none_iff]
    exact hp
  constructor
  · intro h5
    exact flip_first hm hfin hpend h5
  · intro h5
    rw [h5] at hr
    unfold on_card_click
    rw [h5]
    simp [hm, hfin, hpend, hnone]
    simpa using hr

/-- Witness for C8: with card 0 revealed in a two-card round, clicking
out-of-range position 5 raises at the deck lookup, carrying the partially
mutated state. -/
theorem out_of_range_flip_witness :
    (({ deck := ["A","A"], revealed := [0], matched := ∅, moves := 0,
        pending_hide_at := 0, finished := false } : RoundState).revealed =
        [] →
      on_card_click
          { deck := ["A","A"], revealed := [0], matched := ∅, moves := 0,
            pending_hide_at := 0, finished := false } 5 0 =
        Except.ok
          { deck := ["A","A"], revealed := [5], matched := ∅, moves := 0,
            pending_hide_at := 0, finished := false }) ∧
      (({ deck := ["A","A"], revealed := [0], matched := ∅, moves := 0,
          pending_hide_at := 0, finished := false } : RoundState).revealed =
          [0] →
        on_card_click
            { deck := ["A","A"], revealed := [0], matched := ∅, moves := 0,
              pending_hide_at := 0, finished := false } 5 0 =
          Except.error
            { deck := ["A","A"], revealed := [5, 0], matched := ∅,
              moves := 1, pending_hide_at := 0, finished := false }) := by
  refine out_of_range_flip ?_ ?_ ?_ ?_ ?_ <;> decide

/-- Claim C8 counterexample: in a fresh four-card round (pair count 2),
flipping the out-of-range position 4 is accepted and changes the state,
so it is not a no-op as the claim asserts. -/
theorem out_of_range_flip_counterexample :
    on_card_click (new_game ["A","A","B","B"]) 4 0 ≠
      Except.ok (new_game ["A","A","B","B"]) := by decide

/-- Claim C9 (amended): deck creation fails (`ValueError` from
`random.sample`, named InsufficientSymbolsError by the spec) exactly when the
pool holds fewer symbols than the requested pair count; `tick` is total;
`on_card_click` never raises when the clicked position and every currently
revealed position lie inside the deck — but it can raise an IndexError on
out-of-range positions. -/
theorem error_taxonomy {pool : List String} {pairs : ℕ} {s : RoundState}
    {i : ℕ} {now : ℚ} (hin : i < s.deck.length)
    (hrevin : ∀ j ∈ s.revealed, j < s.deck.length) :
    ((∃ deck, ValidDeal pool pairs deck) ↔ pairs ≤ pool.length) ∧
      ∃ t, on_card_click s i now = Except.ok t := by
  constructor
  · constructor
    · rintro ⟨deck, symbols, hlen, hsub, _⟩
      rw [← hlen]
      exact hsub.length_le
    · intro hle
      refine ⟨pool.take pairs ++ pool.take pairs, pool.take pairs, ?_,
        (List.take_sublist _ _).subperm, List.Perm.refl _⟩
      rw [List.length_take]
      omega
  · cases hres : on_card_click s i now with
    | ok t => exact ⟨t, rfl⟩
    | error t =>
      exfalso
      obtain ⟨_, _, _, _, j, hrevj, hnone, _⟩ := flip_raise_cases hres
      rcases hnone with hni | hnj
      · rw [List.getElem?_eq_none_iff] at hni
        omega
      · have hj := hrevin j (by rw [hrevj]; simp)
        rw [List.getElem?_eq_none_iff] at hnj
        omega

/-- Witness for C9: a one-symbol pool suffices for one pair, and an
in-range flip in a fresh round does not raise. -/
theorem error_taxonomy_witness :
    ((∃ deck, ValidDeal ["A"] 1 deck) ↔ 1 ≤ (["A"] : List String).length) ∧
      ∃ t, on_card_click (new_game ["A","A"]) 0 0 = Except.ok t :=
  error_taxonomy (by decide) (by decide)

/-- Claim C9 counterexample: from a fresh two-card round, flipping card 0
succeeds, and flipping the out-of-range position 2 then raises (IndexError
on the deck lookup) with the partial mutations retained, so `flip` can
raise. -/
theorem flip_failure_counterexample :
    on_card_click (new_game ["A","A"]) 0 0 =
        Except.ok { deck := ["A","A"], revealed := [0], matched := ∅,
                    moves := 0, pending_hide_at := 0, finished := false } ∧
      on_card_click
          { deck := ["A","A"], revealed := [0], matched := ∅, moves := 0,
            pending_hide_at := 0, finished := false } 2 0 =
        Except.error
          { deck := ["A","A"], revealed := [2, 0], matched := ∅,
            moves := 1, pending_hide_at := 0, finished := false } := by
  decide

/-- With a duplicate-free pool the dealt deck is as the spec describes:
2 times the pair count cards, every symbol exactly twice.  The C6 failure
is caused solely by the duplicated fox entry in ANIMALS. -/
theorem valid_deal_nodup_counts {pool : List String} {pairs : ℕ}
    {deck : List String} (hnd : pool.Nodup) (h : ValidDeal pool pairs deck) :
    deck.length = 2 * pairs ∧ ∀ x ∈ deck, deck.count x = 2 := by
  obtain ⟨symbols, hlen, hsub, hperm⟩ := h
  obtain ⟨l, hl1, hl2⟩ := hsub
  have hsnd : symbols.Nodup := hl1.nodup_iff.mp (hl2.nodup hnd)
  constructor
  · rw [hperm.length_eq, List.length_append, hlen]
    omega
  · intro x hx
    have hx2 : x ∈ symbols := by
      have hm := hperm.mem_iff.mp hx
      rw [List.mem_append] at hm
      tauto
    rw [hperm.count_eq, List.count_append,
      List.count_eq_one_of_mem hsnd hx2]

/-- Claim C6 at the failing input: the ANIMALS pool lists the fox twice,
so new_game at pair count 2 can deal the deck [🦊,🦊,🦊,🦊]: its length is
2 times 2 as claimed, but the symbol 🦊 occurs four times, not exactly
twice. -/
theorem deck_duplicate_symbol :
    ValidDeal ANIMALS 2 ["🦊","🦊","🦊","🦊"] ∧
      (["🦊","🦊","🦊","🦊"] : List String).length = 2 * 2 ∧
      List.count "🦊" ["🦊","🦊","🦊","🦊"] = 4 := by
  refine ⟨⟨["🦊","🦊"], rfl, ?_, List.Perm.refl _⟩, by decide, by decide⟩
  rw [List.subperm_ext_iff]
  intro x hx
  simp at hx
  subst hx
  decide

end MemoryMatch
